import Mathlib

/-!
Shallow embedding of the KindleGarden bot (src/bot.py and src/storage.py).

External effects (Telegram API calls, subprocesses, the real file system,
sqlite) are modelled explicitly: the file system is a finite association
list from path strings to byte lists, subprocess invocations are described
by environment records carrying their observable outcome, and outbound chat
calls become events in a result list.  Machine details that the program
never relies on (float formatting of sizes, full Unicode case folding) are
approximated and noted at the definition.
-/

namespace KindleGarden

/-! ## Generic association-list helpers (Python dict / sqlite row lookup) -/

def alook {α : Type} [DecidableEq α] {β : Type} : List (α × β) → α → Option β
  | [], _ => none
  | e :: rest, k => if e.1 = k then some e.2 else alook rest k

def alinsert {α : Type} [DecidableEq α] {β : Type} (l : List (α × β)) (k : α) (v : β) :
    List (α × β) :=
  (k, v) :: l.filter (fun e => e.1 ≠ k)

theorem alook_alinsert_self {α : Type} [DecidableEq α] {β : Type}
    (l : List (α × β)) (k : α) (v : β) : alook (alinsert l k v) k = some v := by
  simp [alook, alinsert]

theorem alook_filter_ne {α : Type} [DecidableEq α] {β : Type}
    (l : List (α × β)) (k : α) : alook (l.filter (fun e => e.1 ≠ k)) k = none := by
  induction l with
  | nil => rfl
  | cons e rest ih =>
    rw [List.filter_cons]
    by_cases h : e.1 = k
    · rw [if_neg (by simp [h])]
      exact ih
    · rw [if_pos (by simp [h])]
      simp only [alook, if_neg h]
      exact ih

/-! ## String helpers

Python string methods modelled structurally over the character list, so that
they reduce in the kernel.  `strToLower` only folds ASCII letters (Python's
`str.lower` also folds non-ASCII; the program only compares ASCII
extensions, where the two agree). -/

def strToLower (s : String) : String := String.mk (s.data.map Char.toLower)

def strToUpper (s : String) : String := String.mk (s.data.map Char.toUpper)

/-- `listBegins p l` is true iff `p` is an initial segment of `l`. -/
def listBegins : List Char → List Char → Bool
  | [], _ => true
  | _ :: _, [] => false
  | a :: as, b :: bs => a == b && listBegins as bs

/-- Python `s.endswith(post)`. -/
def strEndsWith (s post : String) : Bool := listBegins post.data.reverse s.data.reverse

/-- Python `s.startswith(pre)`. -/
def strBegins (pre s : String) : Bool := listBegins pre.data s.data

theorem listBegins_append (p q r : List Char) (h : listBegins p q = true) :
    listBegins p (q ++ r) = true := by
  induction p generalizing q with
  | nil => simp [listBegins]
  | cons a as ih =>
    cases q with
    | nil => simp [listBegins] at h
    | cons b bs =>
      simp only [listBegins, Bool.and_eq_true, beq_iff_eq] at h ⊢
      exact ⟨h.1, ih bs h.2⟩

theorem data_append (a b : String) : (a ++ b).data = a.data ++ b.data := rfl

theorem append_ne_empty_left (a b : String) (h : a ≠ "") : a ++ b ≠ "" := by
  intro hab
  apply h
  have hd : a.data ++ b.data = ([] : List Char) := congrArg String.data hab
  exact String.ext (List.append_eq_nil.mp hd).1

/-! ## Path helpers (model of `pathlib.PurePath.suffix` / `with_suffix`) -/

/-- Characters of the final path component (after the last `/`). -/
def baseNameChars (cs : List Char) : List Char :=
  ((cs.reverse.takeWhile (fun c => c ≠ '/')).reverse)

/-- Walks the reversed name looking for the last dot; `acc` collects the
characters after it in original order.  A dot that is the first or the last
character of the name yields no suffix, matching CPython's
`0 < i < len(name) - 1` rule. -/
def sfxAux : List Char → List Char → Option (List Char)
  | _, [] => none
  | acc, c :: rest =>
    if c = '.' then (if acc.isEmpty || rest.isEmpty then none else some ('.' :: acc))
    else sfxAux (c :: acc) rest

/-- Python `PurePath(p).suffix`. -/
def pathSuffix (p : String) : String :=
  match sfxAux [] (baseNameChars p.data).reverse with
  | none => ""
  | some l => String.mk l

/-- Python `PurePath(p).with_suffix(s)`: directory part, then the name with
its suffix replaced by `s`. -/
def withSuffix (p s : String) : String :=
  let cs := p.data
  let name := baseNameChars cs
  let dir := cs.take (cs.length - name.length)
  String.mk (dir ++ name.take (name.length - (pathSuffix p).length)) ++ s

/-! ## File-system model -/

structure FS where
  files : List (String × List Nat)
deriving DecidableEq

def FS.read (fs : FS) (p : String) : Option (List Nat) := alook fs.files p

def FS.existsFile (fs : FS) (p : String) : Bool := (fs.read p).isSome

def FS.fileSize (fs : FS) (p : String) : Nat := ((fs.read p).getD []).length

def FS.write (fs : FS) (p : String) (c : List Nat) : FS :=
  ⟨(p, c) :: fs.files.filter (fun e => e.1 ≠ p)⟩

def FS.unlink (fs : FS) (p : String) : FS :=
  ⟨fs.files.filter (fun e => e.1 ≠ p)⟩

def FS.unlinkAll (fs : FS) (ps : List String) : FS := ps.foldl FS.unlink fs

theorem existsFile_unlink_self (fs : FS) (p : String) :
    (fs.unlink p).existsFile p = false := by
  show (alook (fs.files.filter (fun e => e.1 ≠ p)) p).isSome = false
  rw [alook_filter_ne]
  rfl

theorem alook_filter_none {α : Type} [DecidableEq α] {β : Type}
    (l : List (α × β)) (f : α × β → Bool) (k : α) (h : alook l k = none) :
    alook (l.filter f) k = none := by
  induction l with
  | nil => rfl
  | cons e rest ih =>
    simp only [alook] at h
    by_cases he : e.1 = k
    · simp [he] at h
    · simp only [if_neg he] at h
      rw [List.filter_cons]
      cases hf : f e
      · simp only [Bool.false_eq_true, if_false]
        exact ih h
      · simp only [if_true, alook, if_neg he]
        exact ih h

theorem isSome_false_eq_none {α : Type} {o : Option α} (h : o.isSome = false) : o = none := by
  cases o with
  | none => rfl
  | some v => simp [Option.isSome] at h

theorem existsFile_unlink_false (fs : FS) (p q : String) (h : fs.existsFile q = false) :
    (fs.unlink p).existsFile q = false := by
  simp only [FS.existsFile, FS.read, FS.unlink] at *
  rw [alook_filter_none _ _ _ (isSome_false_eq_none h)]
  rfl

theorem existsFile_unlinkAll_false (fs : FS) (ps : List String) (q : String)
    (h : fs.existsFile q = false) : (fs.unlinkAll ps).existsFile q = false := by
  induction ps generalizing fs with
  | nil => exact h
  | cons p rest ih =>
    simp only [FS.unlinkAll, List.foldl]
    exact ih (fs.unlink p) (existsFile_unlink_false fs p q h)

theorem existsFile_unlinkAll_mem (fs : FS) (ps : List String) (p : String) (h : p ∈ ps) :
    (fs.unlinkAll ps).existsFile p = false := by
  induction ps generalizing fs with
  | nil => cases h
  | cons q rest ih =>
    simp only [FS.unlinkAll, List.foldl]
    cases h with
    | head =>
      exact existsFile_unlinkAll_false (fs.unlink p) rest p (existsFile_unlink_self fs p)
    | tail _ hmem => exact ih (fs.unlink q) hmem

/-! ## src/storage.py — `UserSettings`

The sqlite table `user_settings (user_id PRIMARY KEY, preferred_format, ...)`
is an association list from user id to format; timestamps carry no observable
behaviour and are omitted.  `INSERT OR REPLACE` replaces the row with the
same primary key. -/

structure UserSettings where
  rows : List (Nat × String)
deriving DecidableEq

def UserSettings.get_preferred_format (db : UserSettings) (user_id : Nat) : String :=
  match alook db.rows user_id with
  | some fmt => fmt
  | none => "azw3"

def UserSettings.set_preferred_format (db : UserSettings) (user_id : Nat) (format : String) :
    UserSettings :=
  ⟨alinsert db.rows user_id format⟩

/-! ## src/bot.py — ZIP detection and unpacking -/

/-- First four bytes of a ZIP archive, `b"PK\x03\x04"`. -/
def zipSignature : List Nat := [0x50, 0x4B, 0x03, 0x04]

/-- `is_zip_file`: reads the first 4 bytes and compares them with the ZIP
signature; any open error (here: missing file) yields `false`. -/
def is_zip_file (fs : FS) (path : String) : Bool :=
  match fs.read path with
  | none => false
  | some content => decide (content.take 4 = zipSignature)

/-- The observable behaviour of Python's `zipfile.ZipFile` on given archive
bytes: `none` when opening raises, otherwise the member list (name,
contents). -/
def ZipView : Type := List Nat → Option (List (String × List Nat))

/-- `unpack_if_needed`: when the file carries the ZIP signature, extract the
first `.fb2` member next to the input (suffix `.unpacked.fb2`); on any
failure (open error, no `.fb2` member) the original path is returned.
Returns the file system after the extraction together with the path. -/
def unpack_if_needed (zipView : ZipView) (fs : FS) (input_path : String) : FS × String :=
  if is_zip_file fs input_path = false then (fs, input_path)
  else
    match fs.read input_path with
    | none => (fs, input_path)
    | some content =>
      match zipView content with
      | none => (fs, input_path)
      | some members =>
        match members.filter (fun m => strEndsWith (strToLower m.1) ".fb2") with
        | [] => (fs, input_path)
        | m :: _ =>
          let extracted := withSuffix input_path ".unpacked.fb2"
          (fs.write extracted m.2, extracted)

/-! ## src/bot.py — `convert_book_with_cover`

The external `ebook-convert` invocation is described by a `ConvEnv`: the
subprocess outcome (timeout, or exit code with stdout/stderr) and the bytes
the tool left at the output path (none when it produced nothing).
`Path.resolve()` is modelled as the identity on the path string. -/

structure ProcResult where
  returncode : Int
  stdout : String
  stderr : String
deriving DecidableEq

inductive RunOutcome where
  | timeout
  | completed (r : ProcResult)
deriving DecidableEq

structure ConvEnv where
  run : RunOutcome
  producedOutput : Option (List Nat)
  coverCheck : RunOutcome
deriving DecidableEq

/-- `pat` occurs as a contiguous segment of `l` (Python `pat in s`). -/
def listContainsSeg (pat : List Char) : List Char → Bool
  | [] => listBegins pat []
  | c :: rest => listBegins pat (c :: rest) || listContainsSeg pat rest

/-- Python `str.strip()` (core `Char.isWhitespace` approximates Python's
whitespace set; the program only strips ASCII tool output). -/
def strTrim (s : String) : String :=
  String.mk (((s.data.dropWhile Char.isWhitespace).reverse.dropWhile Char.isWhitespace).reverse)

def strTake (s : String) (n : Nat) : String := String.mk (s.data.take n)

/-- The stderr lines kept for the diagnostic: stripped, non-empty, and not
starting with `Usage:` or `Convert`. -/
def errLines (stderr : String) : List String :=
  ((stderr.data.splitOn '\n').map (fun l => strTrim (String.mk l))).filter
    (fun l => decide (l ≠ "") && !(strBegins "Usage:" l) && !(strBegins "Convert" l))

/-- Diagnostic for a failed conversion: `Код <rc>` plus up to three truncated
stderr lines. -/
def buildErrorMsg (r : ProcResult) : String :=
  let base := "Код " ++ toString r.returncode
  if r.stderr = "" then base
  else
    let ls := (errLines r.stderr).map (fun l => strTake l 200)
    if ls = [] then base
    else base ++ "\n" ++ String.intercalate ". " (ls.take 3)

/-- Models Python float formatting `f"{bytes/1024/1024:.2f}"` by integer
rounding to the nearest hundredth of a megabyte. -/
def formatMB (bytes : Nat) : String :=
  let centi := (bytes * 100 + 524288) / 1048576
  toString (centi / 100) ++ "." ++ (if centi % 100 < 10 then "0" else "") ++ toString (centi % 100)

/-- Result of the `ebook-meta` cover check on the produced file; an exception
or timeout yields the unknown-status marker. -/
def coverCheckText : RunOutcome → String
  | RunOutcome.timeout => " ? статус обложки неизвестен"
  | RunOutcome.completed r =>
    if listContainsSeg "Cover: Yes".data r.stdout.data = true then " ✓ обложка встроена"
    else if listContainsSeg "Has cover: yes".data r.stdout.data = true then " ✓ обложка встроена"
    else " ⚠️ обложка не встроена"

/-- The `ebook-convert` command line assembled by `convert_book_with_cover`. -/
def convertCmd (fs : FS) (input_abs output_abs : String) (cover_path : Option String) :
    List String :=
  let base := ["ebook-convert", input_abs, output_abs]
  let output_ext := strToLower (pathSuffix output_abs)
  let fmtFlags :=
    if output_ext = ".mobi" then
      ["--mobi-keep-original-images", "--share-not-sync", "--personal-doc=Y"]
    else if output_ext = ".azw3" then ["--disable-font-rescaling"]
    else []
  let coverFlags :=
    match cover_path with
    | some cp =>
      if fs.existsFile cp = true && 1000 < fs.fileSize cp then
        ["--cover", cp, "--preserve-cover-aspect-ratio"]
      else ["--no-default-epub-cover"]
    | none => ["--no-default-epub-cover"]
  let fb2Flags :=
    if strEndsWith (strToLower input_abs) ".fb2" = true then
      ["--embed-all-fonts", "--subset-embedded-fonts"]
    else []
  base ++ fmtFlags ++ coverFlags ++ ["--linearize-tables"] ++ fb2Flags

/-- `convert_book_with_cover`: returns `(success, diagnostic)` and the file
system after the tool ran.  Success requires exit code 0 and a non-empty
output file; a timeout is caught and reported as a failure. -/
def convert_book_with_cover (env : ConvEnv) (fs : FS) (input_path output_path : String)
    (cover_path : Option String) : (Bool × String) × FS :=
  let _cmd := convertCmd fs input_path output_path cover_path
  match env.run with
  | RunOutcome.timeout => ((false, "Таймаут конвертации (5 мин)"), fs)
  | RunOutcome.completed r =>
    let fs' := match env.producedOutput with
               | some c => fs.write output_path c
               | none => fs
    if r.returncode ≠ 0 ∨ fs'.existsFile output_path = false ∨ fs'.fileSize output_path = 0 then
      ((false, buildErrorMsg r), fs')
    else
      let cover_check :=
        match cover_path with
        | some cp => if fs'.existsFile cp = true then coverCheckText env.coverCheck else ""
        | none => ""
      ((true, formatMB (fs'.fileSize output_path) ++ " МБ" ++ cover_check), fs')

/-! ## src/bot.py — job records and the conversion worker

A job is the dict built by `handle_document`; `message_id` is set only after
the enqueue confirmation message is sent, hence optional.  The in-memory
registry `active_tasks` is an association list from task id to job.
Outbound Telegram calls made by the worker become `OutMsg` events.  The
collaborator tools invoked while processing (metadata extraction, cover
extraction, conversion, message editing) are described by a `WorkerEnv`. -/

structure Task where
  task_id : String
  user_id : Nat
  file_id : String
  file_name : Option String
  input_path : String
  output_path : String
  output_format : String
  status : String
  message_id : Option Nat
deriving DecidableEq

inductive OutMsg where
  | statusEdit (chat_id message_id : Nat) (text : String)
  | document (chat_id : Nat) (path filename caption : String)
  | message (chat_id : Nat) (text : String)
deriving DecidableEq

structure WorkerEnv where
  zipView : ZipView
  metaTitle : Option String
  metaAuthors : Option (List String)
  coverResult : Bool
  coverWritten : Option (List Nat)
  editOk : Bool
  conv : ConvEnv

/-- `metadata["title"] or "Без названия"` (Python `or`: `None` and the empty
string both fall back to the default). -/
def workerTitle (env : WorkerEnv) : String :=
  match env.metaTitle with
  | some t => if t = "" then "Без названия" else t
  | none => "Без названия"

/-- `metadata["authors"][0] if metadata["authors"] else "Неизвестен"`. -/
def workerAuthor (env : WorkerEnv) : String :=
  match env.metaAuthors with
  | some (a :: _) => a
  | _ => "Неизвестен"

def coverPathOf (task : Task) : String := task.input_path ++ ".cover.jpg"

/-- `unpack_if_needed(task["input_path"])` as run by the worker. -/
def unpackResult (env : WorkerEnv) (fs0 : FS) (task : Task) : FS × String :=
  unpack_if_needed env.zipView fs0 task.input_path

/-- File system after `extract_cover_improved` (which may leave bytes at the
cover path even when it reports no usable cover). -/
def fsAfterCover (env : WorkerEnv) (fs0 : FS) (task : Task) : FS :=
  match env.coverWritten with
  | some c => (unpackResult env fs0 task).1.write (coverPathOf task) c
  | none => (unpackResult env fs0 task).1

/-- The conversion call made by the worker: input is the unpacked path, the
cover is passed only when extraction reported success. -/
def convOutcome (env : WorkerEnv) (fs0 : FS) (task : Task) : (Bool × String) × FS :=
  convert_book_with_cover env.conv (fsAfterCover env fs0 task) (unpackResult env fs0 task).2
    task.output_path (if env.coverResult = true then some (coverPathOf task) else none)

/-- Models Python float formatting `f"{bytes/1024:.1f}"`. -/
def fmtKB1 (bytes : Nat) : String :=
  let deci := (bytes * 10 + 512) / 1024
  toString (deci / 10) ++ "." ++ toString (deci % 10)

def statusText (title author : String) (has_cover : Bool) (cover_size : Nat) : String :=
  let base := "⏳ Конвертирую:\n<b>" ++ title ++ "</b>\n<i>" ++ author ++ "</i>"
  if has_cover = true then base ++ "\n✅ Обложка найдена (" ++ fmtKB1 cover_size ++ " КБ)"
  else base ++ "\n⚠️ Обложка не найдена"

def workerStatusText (env : WorkerEnv) (fs0 : FS) (task : Task) : String :=
  let fs2 := fsAfterCover env fs0 task
  let cover_size :=
    if fs2.existsFile (coverPathOf task) = true then fs2.fileSize (coverPathOf task) else 0
  statusText (workerTitle env) (workerAuthor env) env.coverResult cover_size

/-- The status-message edit, wrapped in try/except in the source: a failing
edit (or a job with no status message id) produces no event. -/
def workerEditEvents (task : Task) (editOk : Bool) (text : String) : List OutMsg :=
  match task.message_id, editOk with
  | some mid, true => [OutMsg.statusEdit task.user_id mid text]
  | _, _ => []

def badFilenameChars : List Char := ['<', '>', ':', '"', '/', '\\', '|', '?', '*']

/-- `re.sub(r'[<>:"/\\|?*]', '', s)[:n]`. -/
def sanitizeName (s : String) (n : Nat) : String :=
  String.mk ((s.data.filter (fun c => !(badFilenameChars.contains c))).take n)

def failureMarker : String := "❌ Ошибка конвертации"

def failureText (title diag : String) : String :=
  failureMarker ++ " <b>" ++ title ++ "</b>:\n<code>" ++ diag ++
    "</code>\n\nПопробуйте:\n1. Конвертировать в другой формат (AZW3 вместо MOBI)\n2. Уменьшить размер файла\n3. Отправить книгу без обложки"

def mobiAdviceText : String :=
  "\n\n📝 <b>Совет по обложкам для MOBI:</b>\n1. На Kindle отправьте файл на email устройства\n2. В теме письма добавьте <code>convert</code>\n3. Или используйте Calibre для прямого копирования"

def readyText : String := "Файл готов для Kindle! 📚"

/-- The terminal notification block of the worker: on `success and
output_p.exists()` the document plus a follow-up message, otherwise the
failure message. -/
def workerResultEvents (task : Task) (title author : String) (has_cover success : Bool)
    (diag : String) (outExists : Bool) : List OutMsg :=
  if success = true ∧ outExists = true then
    let ext := pathSuffix task.output_path
    let filename := sanitizeName author 30 ++ " - " ++ sanitizeName title 50 ++ ext
    let cover_info :=
      if has_cover = true then
        (if listContainsSeg "✓ обложка встроена".data diag.data = true then "\n🖼️ Обложка встроена"
         else "\n⚠️ Обложка могла не встроиться")
      else ""
    let caption := "✅ Конвертация завершена\n📚 " ++ title ++ "\n👤 " ++ author ++ "\n💾 " ++
      diag ++ cover_info
    let followUp :=
      if strToLower (pathSuffix task.output_path) = ".mobi" ∧ has_cover = true then
        OutMsg.message task.user_id mobiAdviceText
      else OutMsg.message task.user_id readyText
    [OutMsg.document task.user_id task.output_path filename caption, followUp]
  else
    [OutMsg.message task.user_id (failureText title diag)]

/-- The worker's cleanup block: best-effort unlink of the source, the
destination, the cover image (listed twice in the source), the cover next to
the unpacked copy, and finally the unpacked copy itself when it differs from
the input. -/
def cleanupJob (fs : FS) (input_path output_path cover_path unpacked_path : String) : FS :=
  let cleanup_files := [input_path, output_path, cover_path,
                        input_path ++ ".cover.jpg", unpacked_path ++ ".cover.jpg"]
  let fs4 := fs.unlinkAll cleanup_files
  if unpacked_path = input_path then fs4 else fs4.unlink unpacked_path

structure StepOut where
  fs : FS
  reg : List (String × Task)
  events : List OutMsg

def processTaskEvents (env : WorkerEnv) (fs0 : FS) (task : Task) : List OutMsg :=
  workerEditEvents task env.editOk (workerStatusText env fs0 task) ++
  workerResultEvents task (workerTitle env) (workerAuthor env) env.coverResult
    (convOutcome env fs0 task).1.1 (convOutcome env fs0 task).1.2
    ((convOutcome env fs0 task).2.existsFile task.output_path)

def processTaskFs (env : WorkerEnv) (fs0 : FS) (task : Task) : FS :=
  cleanupJob (convOutcome env fs0 task).2 task.input_path task.output_path (coverPathOf task)
    (unpackResult env fs0 task).2

/-- Registry after one pass: the status is first set to "converting"
(`active_tasks[task_id]["status"] = ...`), and the entry is popped at the
end (`active_tasks.pop(task_id, None)`). -/
def processTaskReg (reg0 : List (String × Task)) (task : Task) : List (String × Task) :=
  (alinsert reg0 task.task_id { task with status := "converting" }).filter
    (fun e => e.1 ≠ task.task_id)

/-- One full, exception-free pass of the worker body over a dequeued job:
unpack, metadata, cover, status edit, conversion, terminal notification,
cleanup, registry removal. -/
def processTask (env : WorkerEnv) (fs0 : FS) (reg0 : List (String × Task)) (task : Task) :
    StepOut :=
  { fs := processTaskFs env fs0 task,
    reg := processTaskReg reg0 task,
    events := processTaskEvents env fs0 task }

/-! ### The worker loop (`while True: try ... except`)

An iteration either runs the body to completion or an unexpected exception
escapes at some point; `crash = some eff` says the iteration raised, leaving
whatever partial state mutation `eff` describes.  The except-branch logs and
sleeps, then the loop continues with the next job. -/

structure IterSpec where
  task : Task
  env : WorkerEnv
  crash : Option ((FS × List (String × Task)) → FS × List (String × Task))

inductive TraceItem where
  | processed (task_id : String)
  | errorLogged
  | slept
deriving DecidableEq

def isErrLog : TraceItem → Bool
  | TraceItem.errorLogged => true
  | _ => false

def isSlept : TraceItem → Bool
  | TraceItem.slept => true
  | _ => false

def workerLoop (fs : FS) (reg : List (String × Task)) :
    List IterSpec → FS × List (String × Task) × List TraceItem
  | [] => (fs, reg, [])
  | it :: rest =>
    match it.crash with
    | some eff =>
      let s1 := eff (fs, reg)
      let r := workerLoop s1.1 s1.2 rest
      (r.1, r.2.1, TraceItem.errorLogged :: TraceItem.slept :: r.2.2)
    | none =>
      let out := processTask it.env fs reg it.task
      let r := workerLoop out.fs out.reg rest
      (r.1, r.2.1, TraceItem.processed it.task.task_id :: r.2.2)

/-! ## src/bot.py — `handle_document` (upload validation and enqueue)

`conversion_queue` (capacity 5, FIFO) is the `queue` list; `full()` is
`5 ≤ length`, `put` appends.  The Telegram download is described by a
`HandleEnv`: the generated short job id, the download outcome (`Except`:
an exception message, or the received bytes) and the id of the enqueue
confirmation message.  Each outbound call becomes a `FrontEvent`; a
`download` event is emitted exactly when the handler reaches the network
fetch. -/

structure Doc where
  file_name : Option String
  file_size : Nat
  file_id : String
deriving DecidableEq

structure BotState where
  queue : List Task
  reg : List (String × Task)
  fs : FS
  settings : UserSettings
deriving DecidableEq

inductive FrontEvent where
  | reply (text : String)
  | download (file_id : String) (dest : String)
deriving DecidableEq

instance exceptDecEq {ε α : Type} [DecidableEq ε] [DecidableEq α] :
    DecidableEq (Except ε α) := fun a b =>
  match a, b with
  | Except.error e, Except.error f =>
    if h : e = f then isTrue (by rw [h]) else isFalse (by intro hh; cases hh; exact h rfl)
  | Except.error _, Except.ok _ => isFalse (by intro hh; cases hh)
  | Except.ok _, Except.error _ => isFalse (by intro hh; cases hh)
  | Except.ok x, Except.ok y =>
    if h : x = y then isTrue (by rw [h]) else isFalse (by intro hh; cases hh; exact h rfl)

structure HandleEnv where
  simple_id : String
  downloaded : Except String (List Nat)
  reply_message_id : Nat
deriving DecidableEq

def supported_formats : List String := [".fb2", ".fb2.zip", ".epub"]

def unsupportedText : String :=
  "⚠️ Поддерживаются только:\n• FB2 (.fb2)\n• FB2.ZIP (.fb2.zip)\n• EPUB (.epub)"

def sizeLimitText : String := "⚠️ Максимальный размер файла - 50 МБ"

def queueFullText (qsize : Nat) : String :=
  "⏸️ Очередь заполнена (" ++ toString qsize ++ "/5)\nПожалуйста, подождите..."

def downloadErrorText (e : String) : String :=
  "❌ Ошибка загрузки файла:\n<code>" ++ strTake e 100 ++ "</code>"

def format_info (fmt : String) : String :=
  if fmt = "azw3" then "AZW3 (рекомендуется для обложек)"
  else if fmt = "mobi" then "MOBI (для старых Kindle)"
  else if fmt = "epub" then "EPUB (для других устройств)"
  else ""

def enqueuedText (qsize : Nat) (fmt : String) : String :=
  "✅ Добавлено в очередь (" ++ toString qsize ++ "/5)\nФормат: <b>" ++ strToUpper fmt ++
    "</b>\n" ++ format_info fmt ++ "\n\n⏳ Ожидайте начала конвертации..."

/-- `handle_document`: validates extension, size and queue capacity, then
creates the job record, downloads the file and enqueues the job.  Relative
paths live under `tmp/`. -/
def handle_document (env : HandleEnv) (st : BotState) (user_id : Nat) (doc : Doc) :
    BotState × List FrontEvent :=
  let fname := strToLower ((doc.file_name).getD "")
  if (supported_formats.any fun fmt => strEndsWith fname fmt) = false then
    (st, [FrontEvent.reply unsupportedText])
  else if 50 * 1024 * 1024 < doc.file_size then
    (st, [FrontEvent.reply sizeLimitText])
  else if 5 ≤ st.queue.length then
    (st, [FrontEvent.reply (queueFullText st.queue.length)])
  else
    let input_ext := if pathSuffix fname = "" then ".fb2" else pathSuffix fname
    let preferred := st.settings.get_preferred_format user_id
    let input_path := "tmp/in_" ++ env.simple_id ++ input_ext
    let output_path := "tmp/out_" ++ env.simple_id ++ "." ++ preferred
    let task : Task :=
      { task_id := env.simple_id, user_id := user_id, file_id := doc.file_id,
        file_name := doc.file_name, input_path := input_path, output_path := output_path,
        output_format := preferred, status := "queued", message_id := none }
    let reg1 := alinsert st.reg env.simple_id task
    match env.downloaded with
    | Except.error e =>
      ({ st with reg := reg1, fs := st.fs.unlink input_path },
       [FrontEvent.download doc.file_id input_path,
        FrontEvent.reply (downloadErrorText e)])
    | Except.ok content =>
      let fs1 := st.fs.write input_path content
      if content.length = 0 then
        ({ st with reg := reg1, fs := fs1.unlink input_path },
         [FrontEvent.download doc.file_id input_path,
          FrontEvent.reply (downloadErrorText "Пустой файл")])
      else
        let task2 := { task with message_id := some env.reply_message_id }
        ({ st with reg := alinsert reg1 env.simple_id task2, fs := fs1,
                   queue := st.queue ++ [task2] },
         [FrontEvent.download doc.file_id input_path,
          FrontEvent.reply (enqueuedText (st.queue.length + 1) task.output_format)])

def isDownloadEvent : FrontEvent → Bool
  | FrontEvent.download _ _ => true
  | _ => false

/-! ## Claim C7 — preference store default and round-trip -/

/-- C7: a user with no stored row reads the default format `azw3`, and a
`set_preferred_format` followed by `get_preferred_format` for the same user
returns exactly the value written. -/
theorem settings_default_and_roundtrip (db : UserSettings) (user_id : Nat) (format : String) :
    (alook db.rows user_id = none → db.get_preferred_format user_id = "azw3") ∧
    (db.set_preferred_format user_id format).get_preferred_format user_id = format := by
  constructor
  · intro h
    simp [UserSettings.get_preferred_format, h]
  · simp [UserSettings.get_preferred_format, UserSettings.set_preferred_format,
      alook_alinsert_self]

/-- Witness for C7 at a fresh store and user 5, format `mobi`. -/
theorem settings_default_and_roundtrip_witness :
    (UserSettings.mk []).get_preferred_format 5 = "azw3" ∧
    ((UserSettings.mk []).set_preferred_format 5 "mobi").get_preferred_format 5 = "mobi" :=
  ⟨(settings_default_and_roundtrip (UserSettings.mk []) 5 "mobi").1 rfl,
   (settings_default_and_roundtrip (UserSettings.mk []) 5 "mobi").2⟩

/-! ## Claim C4 — conversion success condition -/

theorem buildErrorMsg_ne_empty (r : ProcResult) : buildErrorMsg r ≠ "" := by
  have hbase : ("Код " ++ toString r.returncode) ≠ "" :=
    append_ne_empty_left "Код " (toString r.returncode) (by decide)
  simp only [buildErrorMsg]
  split
  · exact hbase
  · split
    · exact hbase
    · exact append_ne_empty_left _ _ (append_ne_empty_left _ "\n" hbase)

/-- C4: `convert_book_with_cover` reports success exactly when the external
tool exited with code 0 and the destination file exists non-empty in the
resulting file system; a timeout is caught and reported as the fixed failure
string; every failure carries a non-empty diagnostic. -/
theorem convert_success_iff_nonempty_output (env : ConvEnv) (fs : FS)
    (input_path output_path : String) (cover_path : Option String) :
    ((convert_book_with_cover env fs input_path output_path cover_path).1.1 = true ↔
      (∃ r, env.run = RunOutcome.completed r ∧ r.returncode = 0 ∧
        (convert_book_with_cover env fs input_path output_path cover_path).2.existsFile
          output_path = true ∧
        0 < (convert_book_with_cover env fs input_path output_path cover_path).2.fileSize
          output_path)) ∧
    (env.run = RunOutcome.timeout →
      (convert_book_with_cover env fs input_path output_path cover_path).1 =
        (false, "Таймаут конвертации (5 мин)")) ∧
    ((convert_book_with_cover env fs input_path output_path cover_path).1.1 = false →
      (convert_book_with_cover env fs input_path output_path cover_path).1.2 ≠ "") := by
  cases henv : env.run with
  | timeout =>
    refine ⟨?_, ?_, ?_⟩
    · simp [convert_book_with_cover, henv]
    · intro _
      simp [convert_book_with_cover, henv]
    · intro _
      simp only [convert_book_with_cover, henv]
      decide
  | completed r =>
    simp only [convert_book_with_cover, henv]
    by_cases hc : r.returncode ≠ 0 ∨
        (match env.producedOutput with
         | some c => fs.write output_path c
         | none => fs).existsFile output_path = false ∨
        (match env.producedOutput with
         | some c => fs.write output_path c
         | none => fs).fileSize output_path = 0
    · rw [if_pos hc]
      refine ⟨?_, ?_, ?_⟩
      · simp only [Bool.false_eq_true, false_iff]
        rintro ⟨r', hr', h0, hex, hsz⟩
        have hrr : r' = r := by
          cases hr'
          rfl
        subst hrr
        rcases hc with h | h | h
        · exact h h0
        · rw [hex] at h
          cases h
        · rw [h] at hsz
          exact Nat.lt_irrefl 0 hsz
      · intro ht
        cases ht
      · intro _
        exact buildErrorMsg_ne_empty r
    · rw [if_neg hc]
      push_neg at hc
      obtain ⟨h0, hex, hsz⟩ := hc
      refine ⟨?_, ?_, ?_⟩
      · simp only [true_iff]
        refine ⟨r, rfl, h0, ?_, ?_⟩
        · cases hb : (match env.producedOutput with
              | some c => fs.write output_path c
              | none => fs).existsFile output_path
          · exact absurd hb hex
          · rfl
        · exact Nat.pos_of_ne_zero hsz
      · intro ht
        cases ht
      · intro hfalse
        cases hfalse

/-- Witness for C4 on a timing-out conversion environment. -/
theorem convert_success_iff_nonempty_output_witness :
    (convert_book_with_cover
        (ConvEnv.mk RunOutcome.timeout none RunOutcome.timeout)
        (FS.mk []) "tmp/in_a.fb2" "tmp/out_a.azw3" none).1 =
      (false, "Таймаут конвертации (5 мин)") :=
  (convert_success_iff_nonempty_output
    (ConvEnv.mk RunOutcome.timeout none RunOutcome.timeout)
    (FS.mk []) "tmp/in_a.fb2" "tmp/out_a.azw3" none).2.1 rfl

/-! ## Claim C9 — `unpack_if_needed` is total and non-destructive on failure -/

/-- C9: ZIP detection is by the 4-byte signature, not the extension; when the
signature is absent, opening fails, or the archive holds no `.fb2` member,
the original input path is returned with the file system untouched; a result
path different from the input only arises from a successful extraction, at
the `.unpacked.fb2` sibling path. -/
theorem unpack_if_needed_safe (zipView : ZipView) (fs : FS) (p : String) :
    (is_zip_file fs p = true ↔ ∃ c, fs.read p = some c ∧ c.take 4 = zipSignature) ∧
    (is_zip_file fs p = false → unpack_if_needed zipView fs p = (fs, p)) ∧
    (∀ c, fs.read p = some c → zipView c = none →
      unpack_if_needed zipView fs p = (fs, p)) ∧
    (∀ c members, fs.read p = some c → zipView c = some members →
      members.filter (fun m => strEndsWith (strToLower m.1) ".fb2") = [] →
      unpack_if_needed zipView fs p = (fs, p)) ∧
    ((unpack_if_needed zipView fs p).2 ≠ p →
      ∃ c members m rest, fs.read p = some c ∧ c.take 4 = zipSignature ∧
        zipView c = some members ∧
        members.filter (fun mem => strEndsWith (strToLower mem.1) ".fb2") = m :: rest ∧
        (unpack_if_needed zipView fs p).2 = withSuffix p ".unpacked.fb2" ∧
        (unpack_if_needed zipView fs p).1 =
          fs.write (withSuffix p ".unpacked.fb2") m.2) := by
  have hiff : is_zip_file fs p = true ↔ ∃ c, fs.read p = some c ∧ c.take 4 = zipSignature := by
    unfold is_zip_file
    cases hr : fs.read p with
    | none => simp
    | some c => simp [hr, decide_eq_true_eq]
  have hzf : is_zip_file fs p = false → unpack_if_needed zipView fs p = (fs, p) := by
    intro h
    simp [unpack_if_needed, h]
  have hopen : ∀ c, fs.read p = some c → zipView c = none →
      unpack_if_needed zipView fs p = (fs, p) := by
    intro c hc hz
    by_cases h1 : is_zip_file fs p = false
    · exact hzf h1
    · simp [unpack_if_needed, h1, hc, hz]
  have hnomem : ∀ c members, fs.read p = some c → zipView c = some members →
      members.filter (fun m => strEndsWith (strToLower m.1) ".fb2") = [] →
      unpack_if_needed zipView fs p = (fs, p) := by
    intro c members hc hz hf
    by_cases h1 : is_zip_file fs p = false
    · exact hzf h1
    · simp [unpack_if_needed, h1, hc, hz, hf]
  refine ⟨hiff, hzf, hopen, hnomem, ?_⟩
  intro hne
  by_cases h1 : is_zip_file fs p = false
  · exact absurd (congrArg Prod.snd (hzf h1)) hne
  · have h1' : is_zip_file fs p = true := by
      cases hb : is_zip_file fs p
      · exact absurd hb h1
      · rfl
    obtain ⟨c, hc, hsig⟩ := hiff.mp h1'
    cases hz : zipView c with
    | none => exact absurd (congrArg Prod.snd (hopen c hc hz)) hne
    | some members =>
      cases hf : members.filter (fun m => strEndsWith (strToLower m.1) ".fb2") with
      | nil => exact absurd (congrArg Prod.snd (hnomem c members hc hz hf)) hne
      | cons m rest =>
        refine ⟨c, members, m, rest, hc, hsig, hz, hf, ?_, ?_⟩
        · simp [unpack_if_needed, h1, hc, hz, hf]
        · simp [unpack_if_needed, h1, hc, hz, hf]

/-- Witness for C9: a file without the ZIP signature is passed through
unchanged. -/
theorem unpack_if_needed_safe_witness :
    unpack_if_needed (fun _ => none) (FS.mk []) "tmp/in_a.fb2" =
      (FS.mk [], "tmp/in_a.fb2") :=
  (unpack_if_needed_safe (fun _ => none) (FS.mk []) "tmp/in_a.fb2").2.1 rfl

/-! ## Concrete fixtures used by the witnesses -/

def sampleTask : Task :=
  Task.mk "id1" 7 "fid" (some "b.fb2") "tmp/in_id1.fb2" "tmp/out_id1.azw3" "azw3" "queued" none

def wEnvOk : HandleEnv := HandleEnv.mk "abc123" (Except.ok [1]) 9

def wStEmpty : BotState := BotState.mk [] [] (FS.mk []) (UserSettings.mk [])

def wStFull : BotState :=
  BotState.mk (List.replicate 5 sampleTask) [] (FS.mk []) (UserSettings.mk [])

def wDocFb2 : Doc := Doc.mk (some "book.fb2") 1000 "fid"

def wDocTxt : Doc := Doc.mk (some "book.txt") 1000 "fid"

/-! ## Claim C5 — unsupported extension rejected with no side effects -/

/-- C5: when the (lowercased) filename ends with none of the supported
extensions, `handle_document` returns the state unchanged — no job record,
no queue entry, no file-system change — and the only event is the rejection
reply; in particular no download event is emitted. -/
theorem handle_document_unsupported (env : HandleEnv) (st : BotState) (user_id : Nat)
    (doc : Doc)
    (hext : (supported_formats.any fun fmt =>
      strEndsWith (strToLower ((doc.file_name).getD "")) fmt) = false) :
    handle_document env st user_id doc = (st, [FrontEvent.reply unsupportedText]) := by
  simp [handle_document, hext]

/-- Witness for C5: a `.txt` upload is rejected with no side effects. -/
theorem handle_document_unsupported_witness :
    handle_document wEnvOk wStEmpty 7 wDocTxt = (wStEmpty, [FrontEvent.reply unsupportedText]) :=
  handle_document_unsupported wEnvOk wStEmpty 7 wDocTxt (by decide)

/-! ## Claim C10 — the 50 MB size gate is strict -/

/-- C10: an upload of exactly `50*1024*1024` bytes passes the size check and
reaches the download (a download event is emitted), while any strictly
larger upload is rejected before download with the size-limit reply and no
state change. -/
theorem handle_document_size_gate (env : HandleEnv) (st : BotState) (user_id : Nat)
    (doc : Doc) :
    ((supported_formats.any fun fmt =>
        strEndsWith (strToLower ((doc.file_name).getD "")) fmt) = true →
      doc.file_size = 50 * 1024 * 1024 →
      st.queue.length < 5 →
      (handle_document env st user_id doc).2.countP isDownloadEvent = 1) ∧
    ((supported_formats.any fun fmt =>
        strEndsWith (strToLower ((doc.file_name).getD "")) fmt) = true →
      50 * 1024 * 1024 < doc.file_size →
      handle_document env st user_id doc = (st, [FrontEvent.reply sizeLimitText])) := by
  constructor
  · intro hext hsize hq
    simp only [handle_document]
    rw [if_neg (by simp [hext]), if_neg (by omega), if_neg (by omega)]
    cases hd : env.downloaded with
    | error e => simp [List.countP_cons, isDownloadEvent]
    | ok content =>
      by_cases hz : content.length = 0
      · simp [hz, List.countP_cons, isDownloadEvent]
      · simp [hz, List.countP_cons, isDownloadEvent]
  · intro hext hsize
    simp only [handle_document]
    rw [if_neg (by simp [hext]), if_pos hsize]

/-- Witness for C10: a 50 MB `.fb2` upload proceeds to download; a
`50 MB + 1` upload is rejected with the size-limit message. -/
theorem handle_document_size_gate_witness :
    (handle_document wEnvOk wStEmpty 7 (Doc.mk (some "book.fb2") (50 * 1024 * 1024) "fid")).2.countP
        isDownloadEvent = 1 ∧
    handle_document wEnvOk wStEmpty 7 (Doc.mk (some "book.fb2") (50 * 1024 * 1024 + 1) "fid") =
      (wStEmpty, [FrontEvent.reply sizeLimitText]) :=
  ⟨(handle_document_size_gate wEnvOk wStEmpty 7
      (Doc.mk (some "book.fb2") (50 * 1024 * 1024) "fid")).1 (by decide) rfl (by decide),
   (handle_document_size_gate wEnvOk wStEmpty 7
      (Doc.mk (some "book.fb2") (50 * 1024 * 1024 + 1) "fid")).2 (by decide) (by decide)⟩

/-! ## Claim C3 — bounded queue: full queue rejects, capacity is preserved -/

/-- C3: a valid upload arriving while the queue holds 5 jobs is rejected
with the queue-full reply and the state — queue, registry, file system — is
returned unchanged, with no download event; and `handle_document` never
grows the queue beyond 5 entries (the front end is the only producer). -/
theorem handle_document_queue_cap (env : HandleEnv) (st : BotState) (user_id : Nat)
    (doc : Doc) :
    ((supported_formats.any fun fmt =>
        strEndsWith (strToLower ((doc.file_name).getD "")) fmt) = true →
      doc.file_size ≤ 50 * 1024 * 1024 →
      5 ≤ st.queue.length →
      handle_document env st user_id doc =
        (st, [FrontEvent.reply (queueFullText st.queue.length)])) ∧
    (st.queue.length ≤ 5 → (handle_document env st user_id doc).1.queue.length ≤ 5) := by
  constructor
  · intro hext hsize hfull
    simp only [handle_document]
    rw [if_neg (by simp [hext]), if_neg (by omega), if_pos hfull]
  · intro hq
    by_cases h1 : (supported_formats.any fun fmt =>
        strEndsWith (strToLower ((doc.file_name).getD "")) fmt) = false
    · simp only [handle_document]
      rw [if_pos h1]
      exact hq
    · by_cases h2 : 50 * 1024 * 1024 < doc.file_size
      · simp only [handle_document]
        rw [if_neg h1, if_pos h2]
        exact hq
      · by_cases h3 : 5 ≤ st.queue.length
        · simp only [handle_document]
          rw [if_neg h1, if_neg h2, if_pos h3]
          exact hq
        · simp only [handle_document]
          rw [if_neg h1, if_neg h2, if_neg h3]
          cases hd : env.downloaded with
          | error e => exact hq
          | ok content =>
            dsimp only
            by_cases hz : content.length = 0
            · rw [if_pos hz]
              exact hq
            · rw [if_neg hz]
              simp only [List.length_append, List.length_cons, List.length_nil]
              omega

/-- Witness for C3: with 5 queued jobs a valid upload is rejected and the
queue length stays at 5. -/
theorem handle_document_queue_cap_witness :
    handle_document wEnvOk wStFull 7 wDocFb2 =
      (wStFull, [FrontEvent.reply (queueFullText wStFull.queue.length)]) ∧
    (handle_document wEnvOk wStFull 7 wDocFb2).1.queue.length ≤ 5 :=
  ⟨(handle_document_queue_cap wEnvOk wStFull 7 wDocFb2).1 (by decide) (by decide) (by decide),
   (handle_document_queue_cap wEnvOk wStFull 7 wDocFb2).2 (by decide)⟩

/-! ## Claim C8 — output path extension equals the stored preferred format -/

theorem data_ne_nil_of_ne_empty (s : String) (h : s ≠ "") : s.data ≠ [] := by
  intro hd
  exact h (String.ext (by rw [hd]))

theorem isEmpty_false_of_ne_nil {α : Type} {l : List α} (h : l ≠ []) : l.isEmpty = false := by
  cases l
  · exact absurd rfl h
  · rfl

theorem takeWhile_append_all (p : Char → Bool) (xs ys : List Char)
    (h : ∀ c ∈ xs, p c = true) : (xs ++ ys).takeWhile p = xs ++ ys.takeWhile p := by
  induction xs with
  | nil => rfl
  | cons x xs ih =>
    have hx : p x = true := h x (List.mem_cons_self x xs)
    simp only [List.cons_append, List.takeWhile_cons, hx, if_true]
    exact congrArg (List.cons x) (ih (fun c hc => h c (List.mem_cons_of_mem x hc)))

theorem sfxAux_append_no_dot (xs : List Char) (h : ∀ c ∈ xs, c ≠ '.') :
    ∀ (acc ys : List Char), sfxAux acc (xs ++ ys) = sfxAux (xs.reverse ++ acc) ys := by
  induction xs with
  | nil =>
    intro acc ys
    rfl
  | cons x xs ih =>
    intro acc ys
    have hx : x ≠ '.' := h x (List.mem_cons_self x xs)
    simp only [List.cons_append, sfxAux, if_neg hx, List.append_eq]
    rw [ih (fun c hc => h c (List.mem_cons_of_mem x hc)) (x :: acc) ys]
    congr 1
    simp [List.append_assoc]

/-- Identifier strings without dots or slashes (the short job id from the
uuid hex and the preference-store formats all satisfy this). -/
def goodName (s : String) : Prop :=
  s ≠ "" ∧ ∀ c ∈ s.data, c ≠ '.' ∧ c ≠ '/'

instance (s : String) : Decidable (goodName s) := by
  unfold goodName
  exact inferInstance

theorem pathSuffix_tmp_out (id fmt : String) (hid : goodName id) (hfmt : goodName fmt) :
    pathSuffix ("tmp/out_" ++ id ++ "." ++ fmt) = "." ++ fmt := by
  obtain ⟨hine, hichars⟩ := hid
  obtain ⟨hfne, hfchars⟩ := hfmt
  have hfd : fmt.data ≠ [] := data_ne_nil_of_ne_empty fmt hfne
  have hdata : ("tmp/out_" ++ id ++ "." ++ fmt).data =
      (['t', 'm', 'p', '/', 'o', 'u', 't', '_'] ++ id.data) ++ ('.' :: fmt.data) := by
    have h8 : ("tmp/out_" : String).data = ['t', 'm', 'p', '/', 'o', 'u', 't', '_'] := rfl
    have hdot : ("." : String).data = ['.'] := rfl
    simp [data_append, h8, hdot, List.append_assoc]
  have hrev : ("tmp/out_" ++ id ++ "." ++ fmt).data.reverse =
      (fmt.data.reverse ++ ('.' :: (id.data.reverse ++ ['_', 't', 'u', 'o']))) ++
        ('/' :: ['p', 'm', 't']) := by
    rw [hdata]
    simp [List.reverse_append, List.append_assoc]
  have hall : ∀ c ∈ (fmt.data.reverse ++ ('.' :: (id.data.reverse ++ ['_', 't', 'u', 'o']))),
      decide (c ≠ '/') = true := by
    intro c hc
    rw [decide_eq_true_eq]
    rcases List.mem_append.mp hc with h | h
    · exact (hfchars c (List.mem_reverse.mp h)).2
    · rcases List.mem_cons.mp h with rfl | h
      · decide
      · rcases List.mem_append.mp h with h | h
        · exact (hichars c (List.mem_reverse.mp h)).2
        · fin_cases h <;> decide
  have hbase : baseNameChars ("tmp/out_" ++ id ++ "." ++ fmt).data =
      (fmt.data.reverse ++ ('.' :: (id.data.reverse ++ ['_', 't', 'u', 'o']))).reverse := by
    unfold baseNameChars
    rw [hrev, takeWhile_append_all _ _ _ hall]
    simp [List.takeWhile_cons]
  have hfnodot : ∀ c ∈ fmt.data.reverse, c ≠ '.' :=
    fun c hc => (hfchars c (List.mem_reverse.mp hc)).1
  have hrestne : (id.data.reverse ++ ['_', 't', 'u', 'o']) ≠ [] := by
    intro h
    rcases List.append_eq_nil.mp h with ⟨_, h2⟩
    cases h2
  have haccne : fmt.data.isEmpty = false := isEmpty_false_of_ne_nil hfd
  have hrest : (id.data.reverse ++ ['_', 't', 'u', 'o']).isEmpty = false :=
    isEmpty_false_of_ne_nil hrestne
  have hsfx : sfxAux [] (baseNameChars ("tmp/out_" ++ id ++ "." ++ fmt).data).reverse =
      some ('.' :: fmt.data) := by
    rw [hbase, List.reverse_reverse, sfxAux_append_no_dot fmt.data.reverse hfnodot [] _]
    simp only [List.reverse_reverse, List.append_nil]
    simp [sfxAux, haccne, hrest]
  unfold pathSuffix
  rw [hsfx]
  exact String.ext (by simp [data_append])

/-- C8: an accepted upload appends to the queue exactly one job whose
destination path is `tmp/out_<id>.<fmt>` where `<fmt>` is the submitter's
preferred format read from the store at submission time; for dot- and
slash-free identifiers the path's extension is therefore `.<fmt>`. -/
theorem handle_document_output_extension (env : HandleEnv) (st : BotState) (user_id : Nat)
    (doc : Doc)
    (hext : (supported_formats.any fun fmt =>
      strEndsWith (strToLower ((doc.file_name).getD "")) fmt) = true)
    (hsize : doc.file_size ≤ 50 * 1024 * 1024)
    (hq : st.queue.length < 5)
    (hdl : ∃ c, env.downloaded = Except.ok c ∧ c ≠ []) :
    ∃ t : Task,
      (handle_document env st user_id doc).1.queue = st.queue ++ [t] ∧
      t.output_path =
        "tmp/out_" ++ env.simple_id ++ "." ++ st.settings.get_preferred_format user_id ∧
      (goodName env.simple_id → goodName (st.settings.get_preferred_format user_id) →
        pathSuffix t.output_path = "." ++ st.settings.get_preferred_format user_id) := by
  obtain ⟨c, hc, hcne⟩ := hdl
  simp only [handle_document]
  rw [if_neg (by simp [hext]), if_neg (by omega), if_neg (by omega), hc]
  dsimp only
  rw [if_neg (fun h => hcne (List.length_eq_zero.mp h))]
  refine ⟨_, rfl, rfl, ?_⟩
  intro h1 h2
  exact pathSuffix_tmp_out env.simple_id _ h1 h2

def wSt8 : BotState :=
  BotState.mk [] [] (FS.mk []) ((UserSettings.mk []).set_preferred_format 7 "mobi")

/-- Witness for C8: user 7 stores the legacy format `mobi`, uploads
`book.fb2`, and the enqueued job's destination path carries the stored
format; concretely `tmp/out_abc123.mobi` has extension `.mobi`. -/
theorem handle_document_output_extension_witness :
    (∃ t : Task,
      (handle_document wEnvOk wSt8 7 wDocFb2).1.queue = wSt8.queue ++ [t] ∧
      t.output_path =
        "tmp/out_" ++ wEnvOk.simple_id ++ "." ++ wSt8.settings.get_preferred_format 7 ∧
      (goodName wEnvOk.simple_id → goodName (wSt8.settings.get_preferred_format 7) →
        pathSuffix t.output_path = "." ++ wSt8.settings.get_preferred_format 7)) ∧
    pathSuffix "tmp/out_abc123.mobi" = ".mobi" :=
  ⟨handle_document_output_extension wEnvOk wSt8 7 wDocFb2 (by decide) (by decide) (by decide)
      ⟨[1], rfl, by decide⟩,
   by decide⟩

/-! ## Claim C1 — exactly one terminal notification per processed job -/

/-- The job's converted file delivered as a Telegram document. -/
def isDeliveredDoc : OutMsg → Bool
  | OutMsg.document _ _ _ _ => true
  | _ => false

/-- A failure message: a plain message starting with the fixed failure
marker of the worker's error text. -/
def isFailureNotice : OutMsg → Bool
  | OutMsg.message _ t => strBegins failureMarker t
  | _ => false

theorem isDeliveredDoc_document (u : Nat) (p f c : String) :
    isDeliveredDoc (OutMsg.document u p f c) = true := rfl

theorem isDeliveredDoc_message (u : Nat) (t : String) :
    isDeliveredDoc (OutMsg.message u t) = false := rfl

theorem isDeliveredDoc_statusEdit (u m : Nat) (t : String) :
    isDeliveredDoc (OutMsg.statusEdit u m t) = false := rfl

theorem isFailureNotice_document (u : Nat) (p f c : String) :
    isFailureNotice (OutMsg.document u p f c) = false := rfl

theorem isFailureNotice_statusEdit (u m : Nat) (t : String) :
    isFailureNotice (OutMsg.statusEdit u m t) = false := rfl

theorem isFailureNotice_message (u : Nat) (t : String) :
    isFailureNotice (OutMsg.message u t) = strBegins failureMarker t := rfl

theorem listBegins_self (l : List Char) : listBegins l l = true := by
  induction l with
  | nil => rfl
  | cons a as ih => simp [listBegins, ih]

theorem strBegins_data (pre s : String) (R : List Char) (h : s.data = pre.data ++ R) :
    strBegins pre s = true := by
  unfold strBegins
  rw [h]
  exact listBegins_append _ _ _ (listBegins_self _)

theorem strBegins_failureText (title diag : String) :
    strBegins failureMarker (failureText title diag) = true :=
  strBegins_data _ _
    (" <b>".data ++ (title.data ++ ("</b>:\n<code>".data ++ (diag.data ++
      "</code>\n\nПопробуйте:\n1. Конвертировать в другой формат (AZW3 вместо MOBI)\n2. Уменьшить размер файла\n3. Отправить книгу без обложки".data))))
    (by simp [failureText, data_append, List.append_assoc])

theorem strBegins_fail_advice : strBegins failureMarker mobiAdviceText = false := by decide

theorem strBegins_fail_ready : strBegins failureMarker readyText = false := by decide

theorem editEvents_no_terminal (task : Task) (ok : Bool) (text : String) :
    (workerEditEvents task ok text).countP isDeliveredDoc = 0 ∧
    (workerEditEvents task ok text).countP isFailureNotice = 0 := by
  unfold workerEditEvents
  cases task.message_id <;> cases ok <;>
    simp [List.countP_cons, isDeliveredDoc_statusEdit, isFailureNotice_statusEdit]

theorem resultEvents_one_terminal (task : Task) (title author : String)
    (has_cover success : Bool) (diag : String) (outExists : Bool) :
    ((workerResultEvents task title author has_cover success diag outExists).countP
        isDeliveredDoc = 1 ∧
     (workerResultEvents task title author has_cover success diag outExists).countP
        isFailureNotice = 0) ∨
    ((workerResultEvents task title author has_cover success diag outExists).countP
        isDeliveredDoc = 0 ∧
     (workerResultEvents task title author has_cover success diag outExists).countP
        isFailureNotice = 1) := by
  simp only [workerResultEvents]
  by_cases h : success = true ∧ outExists = true
  · left
    rw [if_pos h]
    by_cases hm : strToLower (pathSuffix task.output_path) = ".mobi" ∧ has_cover = true
    · rw [if_pos hm]
      constructor
      · simp [List.countP_cons, isDeliveredDoc_document, isDeliveredDoc_message]
      · simp [List.countP_cons, isFailureNotice_document, isFailureNotice_message,
          strBegins_fail_advice]
    · rw [if_neg hm]
      constructor
      · simp [List.countP_cons, isDeliveredDoc_document, isDeliveredDoc_message]
      · simp [List.countP_cons, isFailureNotice_document, isFailureNotice_message,
          strBegins_fail_ready]
  · right
    rw [if_neg h]
    constructor
    · simp [List.countP_cons, isDeliveredDoc_message]
    · simp [List.countP_cons, isFailureNotice_message, strBegins_failureText]

/-- C1: every job the worker dequeues and processes to a terminal state
yields exactly one terminal notification to the submitter: either the
converted file is delivered as a document and no failure message is sent,
or exactly one failure message is sent and no document — never both, never
neither. -/
theorem worker_exactly_one_terminal_notification (env : WorkerEnv) (fs0 : FS)
    (reg0 : List (String × Task)) (task : Task) :
    ((processTask env fs0 reg0 task).events.countP isDeliveredDoc = 1 ∧
     (processTask env fs0 reg0 task).events.countP isFailureNotice = 0) ∨
    ((processTask env fs0 reg0 task).events.countP isDeliveredDoc = 0 ∧
     (processTask env fs0 reg0 task).events.countP isFailureNotice = 1) := by
  have hev : (processTask env fs0 reg0 task).events =
      workerEditEvents task env.editOk (workerStatusText env fs0 task) ++
      workerResultEvents task (workerTitle env) (workerAuthor env) env.coverResult
        (convOutcome env fs0 task).1.1 (convOutcome env fs0 task).1.2
        ((convOutcome env fs0 task).2.existsFile task.output_path) := rfl
  rw [hev, List.countP_append, List.countP_append]
  obtain ⟨he1, he2⟩ := editEvents_no_terminal task env.editOk (workerStatusText env fs0 task)
  rw [he1, he2]
  simpa using resultEvents_one_terminal task (workerTitle env) (workerAuthor env)
    env.coverResult (convOutcome env fs0 task).1.1 (convOutcome env fs0 task).1.2
    ((convOutcome env fs0 task).2.existsFile task.output_path)

/-! ## Claim C2 — terminal cleanup removes all job files and the registry entry -/

theorem cleanupJob_removes (fs : FS) (inp outp cov up : String) :
    (cleanupJob fs inp outp cov up).existsFile inp = false ∧
    (cleanupJob fs inp outp cov up).existsFile outp = false ∧
    (cleanupJob fs inp outp cov up).existsFile cov = false ∧
    (cleanupJob fs inp outp cov up).existsFile up = false := by
  simp only [cleanupJob]
  by_cases h : up = inp
  · rw [if_pos h]
    subst h
    refine ⟨?_, ?_, ?_, ?_⟩ <;> exact existsFile_unlinkAll_mem _ _ _ (by simp)
  · rw [if_neg h]
    refine ⟨?_, ?_, ?_, ?_⟩
    · exact existsFile_unlink_false _ _ _ (existsFile_unlinkAll_mem _ _ _ (by simp))
    · exact existsFile_unlink_false _ _ _ (existsFile_unlinkAll_mem _ _ _ (by simp))
    · exact existsFile_unlink_false _ _ _ (existsFile_unlinkAll_mem _ _ _ (by simp))
    · exact existsFile_unlink_self _ _

/-- C2: after the worker finishes a job — whichever terminal outcome — the
job's source file, destination file, extracted cover image and intermediate
unpacked copy are all absent from the resulting file system, and the job id
is gone from the registry.  The statement holds for every starting file
system, in particular when some of these files were never created, so the
cleanup is safe to run unconditionally. -/
theorem worker_cleanup_removes_files_and_job (env : WorkerEnv) (fs0 : FS)
    (reg0 : List (String × Task)) (task : Task) :
    (processTask env fs0 reg0 task).fs.existsFile task.input_path = false ∧
    (processTask env fs0 reg0 task).fs.existsFile task.output_path = false ∧
    (processTask env fs0 reg0 task).fs.existsFile (coverPathOf task) = false ∧
    (processTask env fs0 reg0 task).fs.existsFile (unpackResult env fs0 task).2 = false ∧
    alook (processTask env fs0 reg0 task).reg task.task_id = none := by
  have hfs : (processTask env fs0 reg0 task).fs =
      cleanupJob (convOutcome env fs0 task).2 task.input_path task.output_path
        (coverPathOf task) (unpackResult env fs0 task).2 := rfl
  have hreg : (processTask env fs0 reg0 task).reg = processTaskReg reg0 task := rfl
  rw [hfs, hreg]
  obtain ⟨h1, h2, h3, h4⟩ := cleanupJob_removes (convOutcome env fs0 task).2 task.input_path
    task.output_path (coverPathOf task) (unpackResult env fs0 task).2
  exact ⟨h1, h2, h3, h4, by unfold processTaskReg; exact alook_filter_ne _ _⟩

/-! ## Claim C6 — the worker loop survives per-job exceptions -/

theorem workerLoop_cons_crash (fs : FS) (reg : List (String × Task)) (i : IterSpec)
    (rest : List IterSpec) (eff : (FS × List (String × Task)) → FS × List (String × Task))
    (h : i.crash = some eff) :
    workerLoop fs reg (i :: rest) =
      ((workerLoop (eff (fs, reg)).1 (eff (fs, reg)).2 rest).1,
       (workerLoop (eff (fs, reg)).1 (eff (fs, reg)).2 rest).2.1,
       TraceItem.errorLogged :: TraceItem.slept ::
         (workerLoop (eff (fs, reg)).1 (eff (fs, reg)).2 rest).2.2) := by
  simp [workerLoop, h]

theorem workerLoop_cons_ok (fs : FS) (reg : List (String × Task)) (i : IterSpec)
    (rest : List IterSpec) (h : i.crash = none) :
    workerLoop fs reg (i :: rest) =
      ((workerLoop (processTask i.env fs reg i.task).fs
          (processTask i.env fs reg i.task).reg rest).1,
       (workerLoop (processTask i.env fs reg i.task).fs
          (processTask i.env fs reg i.task).reg rest).2.1,
       TraceItem.processed i.task.task_id ::
         (workerLoop (processTask i.env fs reg i.task).fs
            (processTask i.env fs reg i.task).reg rest).2.2) := by
  simp [workerLoop, h]

/-- C6: the worker loop never terminates because of a per-job exception:
every raising iteration contributes exactly one logged error (followed by
the brief sleep) to the trace, and every job whose iteration does not raise
is still processed, no matter how many earlier jobs raised. -/
theorem worker_loop_survives_job_exceptions (fs : FS) (reg : List (String × Task))
    (iters : List IterSpec) :
    (workerLoop fs reg iters).2.2.countP isErrLog =
      iters.countP (fun it => it.crash.isSome) ∧
    (workerLoop fs reg iters).2.2.countP isSlept =
      iters.countP (fun it => it.crash.isSome) ∧
    ∀ it ∈ iters, it.crash = none →
      TraceItem.processed it.task.task_id ∈ (workerLoop fs reg iters).2.2 := by
  induction iters generalizing fs reg with
  | nil => exact ⟨rfl, rfl, fun it h => absurd h (List.not_mem_nil it)⟩
  | cons i rest ih =>
    cases hc : i.crash with
    | some eff =>
      rw [workerLoop_cons_crash fs reg i rest eff hc]
      refine ⟨?_, ?_, ?_⟩
      · simp only [List.countP_cons]
        rw [(ih _ _).1]
        simp [isErrLog, hc]
      · simp only [List.countP_cons]
        rw [(ih _ _).2.1]
        simp [isSlept, hc]
      · intro it hmem hnone
        rcases List.mem_cons.mp hmem with rfl | hm
        · rw [hc] at hnone
          exact Option.noConfusion hnone
        · exact List.mem_cons_of_mem _
            (List.mem_cons_of_mem _ ((ih _ _).2.2 it hm hnone))
    | none =>
      rw [workerLoop_cons_ok fs reg i rest hc]
      refine ⟨?_, ?_, ?_⟩
      · simp only [List.countP_cons]
        rw [(ih _ _).1]
        simp [isErrLog, hc]
      · simp only [List.countP_cons]
        rw [(ih _ _).2.1]
        simp [isSlept, hc]
      · intro it hmem hnone
        rcases List.mem_cons.mp hmem with rfl | hm
        · exact List.mem_cons_self _ _
        · exact List.mem_cons_of_mem _ ((ih _ _).2.2 it hm hnone)

def sampleConvEnv : ConvEnv := ConvEnv.mk RunOutcome.timeout none RunOutcome.timeout

def sampleWEnv : WorkerEnv :=
  WorkerEnv.mk (fun _ => none) none none false none false sampleConvEnv

def crashIter : IterSpec := IterSpec.mk sampleTask sampleWEnv (some (fun s => s))

def okIter : IterSpec := IterSpec.mk sampleTask sampleWEnv none

/-- Witness for C6: a crashing first iteration does not prevent the second
job from being processed. -/
theorem worker_loop_survives_witness :
    TraceItem.processed okIter.task.task_id ∈
      (workerLoop (FS.mk []) [] [crashIter, okIter]).2.2 :=
  (worker_loop_survives_job_exceptions (FS.mk []) [] [crashIter, okIter]).2.2 okIter
    (List.mem_cons_of_mem _ (List.mem_cons_self _ _)) rfl

end KindleGarden
